import Mathlib

/-!
Verification of the fleet-orchestration tasks of tacticalrmm
(api/tacticalrmm/agents/tasks.py) against their specification.

The Python module is shallowly embedded: Django model rows become Lean
structures, the PendingAction / AgentOutage tables become lists threaded
through each task, `pyver.parse` comparison of release versions becomes the
lexicographic order on numeric triples, and every external effect (NATS
dispatch, salt RPC, SMTP, logging) is recorded in the function's result
instead of performed.
-/

namespace TRMM

/-- A release version `major.minor.patch`, as produced by
`packaging.version.parse` on the release-only version strings this module
compares ("1.1.10", "1.1.11", "1.1.12", "1.2.0", ...).  On such strings
`pyver` order is exactly the lexicographic order on the numeric components. -/
structure Version where
  major : Nat
  minor : Nat
  patch : Nat
deriving DecidableEq, Repr

/-- `pyver.parse a < pyver.parse b` on release triples: lexicographic. -/
def verLt (a b : Version) : Bool :=
  decide (a.major < b.major) ||
    (decide (a.major = b.major) &&
      (decide (a.minor < b.minor) ||
        (decide (a.minor = b.minor) && decide (a.patch < b.patch))))

/-- `pyver.parse a <= pyver.parse b` on release triples. -/
def verLe (a b : Version) : Bool :=
  verLt a b || decide (a = b)

/-- The payload stored in an agent-update PendingAction's `details` JSON
field: download url, target version, installer executable name. -/
structure Details where
  url : String
  version : Version
  inno : String
deriving DecidableEq, Repr

/-- A row of the PendingAction table (logs.models.PendingAction).  `pk` is
the database primary key; rows are listed in creation (pk) order, which is
the default queryset order `.last()` relies on. -/
structure PendingAction where
  pk : Nat
  agentId : Nat
  action_type : String
  status : String
  details : Details
deriving DecidableEq, Repr

/-- The fields of an Agent row that the orchestration tasks read.
`arch = none` models `agent.arch is None` (undeterminable architecture);
`has_nats` is the push-transport capability flag; `status` is the derived
status string ("online" / "offline" / "overdue"). -/
structure Agent where
  pk : Nat
  hostname : String
  version : Version
  arch : Option String
  has_nats : Bool
  status : String
  overdue_email_alert : Bool
  overdue_text_alert : Bool
  maintenance_mode : Bool
deriving DecidableEq, Repr

/-- A fire-and-forget NATS message recorded instead of dispatched.
`agentupdate` carries the payload `{url, version, inno}`. -/
inductive NatsMsg where
  | agentupdate (url : String) (version : Version) (inno : String)
  | other (func : String)
deriving DecidableEq, Repr

/-- The filter `agent.pendingactions.filter(action_type="agentupdate",
status="pending")` applied to a row, for the agent with primary key
`agentPk`. -/
def paMatches (agentPk : Nat) (a : PendingAction) : Bool :=
  a.agentId == agentPk && a.action_type == "agentupdate" && a.status == "pending"

/-- The row built by `PendingAction.objects.create(agent=agent,
action_type="agentupdate", details={"url": url, "version": version,
"inno": inno})`; `pk` is the fresh primary key the database assigns. -/
def mkUpdateAction (pk agentPk : Nat) (url : String) (v : Version)
    (inno : String) : PendingAction :=
  ⟨pk, agentPk, "agentupdate", "pending", ⟨url, v, inno⟩⟩

/-- Everything `agent_update` did: the outcome string it returned, the
PendingAction table afterwards, the next fresh primary key, and the NATS
messages it dispatched fire-and-forget. -/
structure UpdateEffect where
  outcome : String
  actions : List PendingAction
  nextPk : Nat
  dispatched : List NatsMsg
deriving DecidableEq, Repr

/-- `agent_update(pk)` from agents/tasks.py.  `latestVer` stands for
`settings.LATEST_AGENT_VER` (the caller's target version); `url` and `inno`
stand for the derived agent properties `agent.winagent_dl` and
`agent.win_inno_exe`.  `actions` is the PendingAction table and `nextPk`
the next primary key the database would assign. -/
def agent_update (agent : Agent) (latestVer : Version) (url inno : String)
    (actions : List PendingAction) (nextPk : Nat) : UpdateEffect :=
  if agent.arch = none then
    ⟨"noarch", actions, nextPk, []⟩
  else if agent.has_nats then
    if verLe agent.version ⟨1, 1, 11⟩ then
      match (actions.filter (paMatches agent.pk)).getLast? with
      | some action =>
        if verLt action.details.version latestVer then
          let remaining := actions.filter (fun b => !(b.pk == action.pk))
          ⟨"created", remaining ++ [mkUpdateAction nextPk agent.pk url latestVer inno],
            nextPk + 1, []⟩
        else
          ⟨"pending", actions, nextPk, []⟩
      | none =>
        ⟨"created", actions ++ [mkUpdateAction nextPk agent.pk url latestVer inno],
          nextPk + 1, []⟩
    else
      ⟨"created", actions, nextPk, [NatsMsg.agentupdate url latestVer inno]⟩
  else
    ⟨"not supported", actions, nextPk, []⟩

/-! ## Uninstall workflow (uninstall_agent_task) -/

/-- The outcome of one salt RPC attempt: `err` when `requests.post` or the
response parsing raised, `ret s` when the call returned and the per-agent
result extracted from `r.json()["return"][0][salt_id]` is `s`. -/
inductive SaltResp where
  | err
  | ret (s : String)
deriving DecidableEq, Repr

/-- An attempt counts as a failure when the call raised or the per-agent
result is not the success sentinel "ok". -/
def isFailure (r : SaltResp) : Bool :=
  match r with
  | .err => true
  | .ret s => s != "ok"

/-- Whether the key-delete RPC raised (its result value is never inspected). -/
def isErr (r : SaltResp) : Bool :=
  match r with
  | .err => true
  | .ret _ => false

/-- The `while 1` retry loop of `uninstall_agent_task`, driven by the list
of attempt outcomes the salt transport would produce.  `attempts` is the
consecutive-failure counter (starts at 0).  Returns `some (error, rest)`
when the loop breaks — `error` is the loop's failed-state flag and `rest`
the attempt outcomes it never consumed — and `none` when the supplied
outcome list is exhausted before the loop exits. -/
def uninstallLoop : List SaltResp → Nat → Option (Bool × List SaltResp)
  | [], _ => none
  | r :: rest, attempts =>
    let attempts1 :=
      match r with
      | .err => attempts + 1
      | .ret s => if s != "ok" then attempts + 1 else 0
    if attempts1 ≥ 10 then some (true, rest)
    else if attempts1 = 0 then some (false, rest)
    else uninstallLoop rest attempts1

/-- The observable outcome of `uninstall_agent_task`: whether the
"uninstall failed" error was logged (versus the success log line), whether
the key-delete RPC was attempted, whether its failure was logged, and the
task's return value. -/
structure UninstallResult where
  errorLogged : Bool
  keyDeleteAttempted : Bool
  keyDeleteErrorLogged : Bool
  ret : String
deriving DecidableEq, Repr

/-- `uninstall_agent_task(salt_id, has_nats)` from agents/tasks.py.
`resps` is the sequence of per-attempt salt outcomes, `kd` the outcome of
the unconditional key-delete RPC.  Returns `none` only when the retry loop
would still be running after consuming every supplied outcome. -/
def uninstall_agent_task (has_nats : Bool) (resps : List SaltResp)
    (kd : SaltResp) : Option UninstallResult :=
  if has_nats then
    some ⟨false, true, isErr kd, "ok"⟩
  else
    match uninstallLoop resps 0 with
    | none => none
    | some (e, _) => some ⟨e, true, isErr kd, "ok"⟩

/-! ## Outage tracker (agent_outages_task) and notification jobs -/

/-- A row of the AgentOutage table.  `is_active` embeds the derived Django
property (`recovery_time is None`); a freshly created outage is active.
The four flags are the delivery-confirmation booleans. -/
structure AgentOutage where
  pk : Nat
  agentId : Nat
  is_active : Bool
  outage_email_sent : Bool
  outage_sms_sent : Bool
  recovery_email_sent : Bool
  recovery_sms_sent : Bool
deriving DecidableEq, Repr

/-- The AgentOutage table in creation (pk) order plus the next fresh
primary key. -/
structure OutageState where
  outages : List AgentOutage
  nextPk : Nat
deriving DecidableEq, Repr

/-- A notification job scheduled with `.delay(pk=outage.pk)`. -/
inductive Job where
  | outageEmail (outagePk : Nat)
  | outageSms (outagePk : Nat)
deriving DecidableEq, Repr

/-- The per-row filter `AgentOutage.objects.filter(agent=agent)`. -/
def outageFor (agentPk : Nat) (o : AgentOutage) : Bool :=
  o.agentId == agentPk

/-- The row built by `AgentOutage(agent=agent)` + `.save()`: active, no
confirmation flag set. -/
def newOutage (pk agentPk : Nat) : AgentOutage :=
  ⟨pk, agentPk, true, false, false, false, false⟩

/-- The dedup test `outages and outages.last().is_active`: the agent's
outage list is nonempty and its last (most recently created) row is
active. -/
def lastActive (agentPk : Nat) (st : OutageState) : Bool :=
  match (st.outages.filter (outageFor agentPk)).getLast? with
  | some o => o.is_active
  | none => false

/-- The loop body of `agent_outages_task` for one agent: skip unless an
alert flag is set and the agent is overdue; skip when the latest outage row
for the agent is active; otherwise create a new AgentOutage and schedule
the email/sms jobs allowed by the alert flags and maintenance mode. -/
def processAgent (a : Agent) (st : OutageState) : OutageState × List Job :=
  if a.overdue_email_alert || a.overdue_text_alert then
    if a.status == "overdue" then
      if lastActive a.pk st then (st, [])
      else
        let o := newOutage st.nextPk a.pk
        (⟨st.outages ++ [o], st.nextPk + 1⟩,
          (if a.overdue_email_alert && !a.maintenance_mode
            then [Job.outageEmail o.pk] else []) ++
          (if a.overdue_text_alert && !a.maintenance_mode
            then [Job.outageSms o.pk] else []))
    else (st, [])
  else (st, [])

/-- `agent_outages_task()` from agents/tasks.py: the sequential sweep over
the agent list, threading the AgentOutage table and accumulating the
scheduled notification jobs. -/
def agent_outages_task : List Agent → OutageState → OutageState × List Job
  | [], st => (st, [])
  | a :: rest, st =>
    let r := processAgent a st
    let r2 := agent_outages_task rest r.1
    (r2.1, r.2 ++ r2.2)

/-- `agent_outage_email_task(pk)`: sleep a 1–15 s jitter (no observable
effect), call `send_outage_email()`, then set `outage_email_sent` and save
only that field.  `sendRaises` says whether the notifier call raised; the
result is the outage row as left in the registry, paired with whether the
job terminated by an exception (in which case the confirmation write never
ran). -/
def agent_outage_email_task (outage : AgentOutage) (sendRaises : Bool) :
    AgentOutage × Bool :=
  if sendRaises then (outage, true)
  else ({ outage with outage_email_sent := true }, false)

/-- `agent_outage_sms_task(pk)`: identical contract with a 1–3 s jitter and
the `outage_sms_sent` flag. -/
def agent_outage_sms_task (outage : AgentOutage) (sendRaises : Bool) :
    AgentOutage × Bool :=
  if sendRaises then (outage, true)
  else ({ outage with outage_sms_sent := true }, false)

/-- `agent_recovery_email_task(pk)`: sleep a 1–15 s jitter, call
`send_recovery_email()`, then set `recovery_email_sent` and save only that
field; a raising notifier call ends the job before the flag write. -/
def agent_recovery_email_task (outage : AgentOutage) (sendRaises : Bool) :
    AgentOutage × Bool :=
  if sendRaises then (outage, true)
  else ({ outage with recovery_email_sent := true }, false)

/-- `agent_recovery_sms_task(pk)`: identical contract with a 1–3 s jitter
and the `recovery_sms_sent` flag. -/
def agent_recovery_sms_task (outage : AgentOutage) (sendRaises : Bool) :
    AgentOutage × Bool :=
  if sendRaises then (outage, true)
  else ({ outage with recovery_sms_sent := true }, false)

/-! ## Script-run notifier (run_script_email_results_task) -/

/-- The reply of the bounded `nats_cmd(..., timeout=nats_timeout)` call for
`runscriptfull`: `none` models the "timeout" sentinel string, `some`
carries the script-result payload.  `execution_time` is kept as the string
`"{:.4f}".format(...)` would render (float formatting is outside the
embedding; no claim depends on it). -/
structure ScriptResult where
  retcode : Int
  execution_time : String
  stdout : String
  stderr : String
deriving DecidableEq, Repr

/-- What `run_script_email_results_task` observably did: whether the
timeout error was logged (early return), the composed report body if any,
whether the SMTP transport was contacted, and the recipient list used. -/
structure ScriptTaskTrace where
  loggedTimeoutError : Bool
  reportBody : Option String
  emailAttempted : Bool
  recipients : List String
deriving DecidableEq, Repr

/-- `run_script_email_results_task` from agents/tasks.py.  `r` is the
bounded-call reply; `emails` the caller-supplied recipients and `defaults`
`CORE.email_alert_recipients`.  On timeout: log and return, composing no
report and never contacting the mail transport.  Otherwise compose the
plaintext report and submit it (SMTP failures are caught and logged, which
does not change this trace's fields). -/
def run_script_email_results_task (hostname scriptName : String)
    (r : Option ScriptResult) (emails defaults : List String) : ScriptTaskTrace :=
  match r with
  | none => ⟨true, none, false, []⟩
  | some res =>
    let subject := hostname ++ " " ++ scriptName ++ " Results"
    let body := subject ++ "\nReturn code: " ++ toString res.retcode ++
      "\nExecution time: " ++ res.execution_time ++ " seconds\nStdout: " ++
      res.stdout ++ "\nStderr: " ++ res.stderr
    ⟨false, some body, true, if emails.isEmpty then defaults else emails⟩

/-! ## Order lemmas for the version embedding -/

theorem verLt_iff (a b : Version) : verLt a b = true ↔
    a.major < b.major ∨ (a.major = b.major ∧
      (a.minor < b.minor ∨ (a.minor = b.minor ∧ a.patch < b.patch))) := by
  simp [verLt]

theorem verLe_iff (a b : Version) : verLe a b = true ↔
    (a.major < b.major ∨ (a.major = b.major ∧
      (a.minor < b.minor ∨ (a.minor = b.minor ∧ a.patch < b.patch)))) ∨ a = b := by
  simp [verLe, verLt_iff]

/-- The order is total and antisymmetric: if `b ≤ a` then `¬ (a < b)`,
matching the semantics of `pyver`'s total order on parsed versions. -/
theorem verLt_eq_false_of_verLe (a b : Version) (h : verLe b a = true) :
    verLt a b = false := by
  rcases Bool.eq_false_or_eq_true (verLt a b) with ht | hf
  · exfalso
    rw [verLt_iff] at ht
    rw [verLe_iff] at h
    obtain ⟨am, an, ap⟩ := a
    obtain ⟨bm, bn, bp⟩ := b
    simp only [Version.mk.injEq] at h ht
    rcases h with h | h
    · omega
    · obtain ⟨h1, h2, h3⟩ := h
      omega
  · exact hf

/-! ## Helper lemmas about the PendingAction table -/

/-- A row matched by the pending agent-update filter is in particular a row
of that agent, so a table with no rows for the agent has no pending
agent-update rows either. -/
theorem filter_paMatches_nil (l : List PendingAction) (p : Nat)
    (h : l.filter (fun b => b.agentId == p) = []) :
    l.filter (paMatches p) = [] := by
  rw [List.filter_eq_nil_iff]
  intro x hx hq
  simp only [paMatches, Bool.and_eq_true] at hq
  have hmem : x ∈ l.filter (fun b => b.agentId == p) :=
    List.mem_filter.mpr ⟨hx, hq.1.1⟩
  rw [h] at hmem
  exact List.not_mem_nil x hmem

/-- When the pending agent-update filter returns exactly `[a]`, deleting the
row with `a`'s primary key leaves no pending agent-update row at all. -/
theorem filter_delete_nil (l : List PendingAction) (p : Nat) (a : PendingAction)
    (h : l.filter (paMatches p) = [a]) :
    (l.filter (fun b => !(b.pk == a.pk))).filter (paMatches p) = [] := by
  rw [List.filter_eq_nil_iff]
  intro x hx hpa
  have hxl : x ∈ l := (List.mem_filter.mp hx).1
  have hq : (!(x.pk == a.pk)) = true := (List.mem_filter.mp hx).2
  have hxa : x ∈ l.filter (paMatches p) := List.mem_filter.mpr ⟨hxl, hpa⟩
  rw [h] at hxa
  have : x = a := by simpa using hxa
  subst this
  simp at hq

/-- The freshly created agent-update row passes the pending agent-update
filter for its agent. -/
theorem paMatches_mkUpdateAction (pk p : Nat) (url : String) (v : Version)
    (inno : String) : paMatches p (mkUpdateAction pk p url v inno) = true := by
  simp [paMatches, mkUpdateAction]

/-! ## Claim theorems -/

/-- C1 (counterexample): the claim as stated is false — an agent with
version 1.1.10, push-capable and with no pending actions, but whose
architecture cannot be determined, makes `agent_update` return "noarch"
(not "created") and create no PendingAction. -/
theorem agentUpdate_scenario_counterexample :
    (agent_update ⟨1, "host", ⟨1, 1, 10⟩, none, true, "online", false, false, false⟩
        ⟨1, 2, 0⟩ "u" "i" [] 0).outcome = "noarch" ∧
    ¬ ((agent_update ⟨1, "host", ⟨1, 1, 10⟩, none, true, "online", false, false, false⟩
        ⟨1, 2, 0⟩ "u" "i" [] 0).outcome = "created") ∧
    (agent_update ⟨1, "host", ⟨1, 1, 10⟩, none, true, "online", false, false, false⟩
        ⟨1, 2, 0⟩ "u" "i" [] 0).actions = [] := by
  decide

/-- C1 (amended): for an agent with version 1.1.10, push-capable, known
architecture, and no PendingAction rows, `agent_update` with target 1.2.0
returns "created" and afterwards exactly one PendingAction of type
agent-update exists for that agent, carrying version 1.2.0 in its
details. -/
theorem agentUpdate_scenario_created (agent : Agent) (url inno : String)
    (actions : List PendingAction) (nextPk : Nat) (s : String)
    (hver : agent.version = ⟨1, 1, 10⟩) (hnats : agent.has_nats = true)
    (harch : agent.arch = some s)
    (hnone : actions.filter (fun b => b.agentId == agent.pk) = []) :
    (agent_update agent ⟨1, 2, 0⟩ url inno actions nextPk).outcome = "created" ∧
    (agent_update agent ⟨1, 2, 0⟩ url inno actions nextPk).actions.filter
        (fun b => b.agentId == agent.pk) =
      [mkUpdateAction nextPk agent.pk url ⟨1, 2, 0⟩ inno] := by
  have harch' : agent.arch ≠ none := by rw [harch]; simp
  have hpa : actions.filter (paMatches agent.pk) = [] := filter_paMatches_nil _ _ hnone
  have hle : verLe (⟨1, 1, 10⟩ : Version) ⟨1, 1, 11⟩ = true := by decide
  simp [agent_update, harch', hnats, hver, hle, hpa, hnone, List.filter_append,
    mkUpdateAction]

/-- C1 (witness for the amended theorem at a concrete input). -/
theorem agentUpdate_scenario_created_witness :
    (agent_update ⟨1, "host", ⟨1, 1, 10⟩, some "64", true, "online", false, false, false⟩
        ⟨1, 2, 0⟩ "u" "i" [] 7).outcome = "created" ∧
    (agent_update ⟨1, "host", ⟨1, 1, 10⟩, some "64", true, "online", false, false, false⟩
        ⟨1, 2, 0⟩ "u" "i" [] 7).actions.filter (fun b => b.agentId == 1) =
      [mkUpdateAction 7 1 "u" ⟨1, 2, 0⟩ "i"] :=
  agentUpdate_scenario_created
    ⟨1, "host", ⟨1, 1, 10⟩, some "64", true, "online", false, false, false⟩
    "u" "i" [] 7 "64" rfl rfl rfl (by decide)

/-- C3 (counterexample): the claim as stated is false — a push-capable
legacy-generation agent that already holds a pending agent-update action
recording a version ≥ the target, but whose architecture cannot be
determined, makes `agent_update` return "noarch", not "pending". -/
theorem agentUpdate_pending_noop_counterexample :
    (agent_update ⟨1, "host", ⟨1, 1, 10⟩, none, true, "online", false, false, false⟩
        ⟨1, 2, 0⟩ "u" "i" [⟨0, 1, "agentupdate", "pending", ⟨"u", ⟨1, 2, 0⟩, "i"⟩⟩]
        5).outcome = "noarch" ∧
    ¬ ((agent_update ⟨1, "host", ⟨1, 1, 10⟩, none, true, "online", false, false, false⟩
        ⟨1, 2, 0⟩ "u" "i" [⟨0, 1, "agentupdate", "pending", ⟨"u", ⟨1, 2, 0⟩, "i"⟩⟩]
        5).outcome = "pending") := by
  decide

/-- C3 (amended): for a push-capable legacy-generation agent with known
architecture whose single pending
agent-update action records a target version ≥ the requested one,
`agent_update` returns "pending" and leaves the PendingAction table, the
primary-key counter and the dispatch log untouched. -/
theorem agentUpdate_pending_noop (agent : Agent) (latestVer : Version)
    (url inno : String) (actions : List PendingAction) (nextPk : Nat)
    (a : PendingAction)
    (harch : agent.arch ≠ none) (hnats : agent.has_nats = true)
    (hleg : verLe agent.version ⟨1, 1, 11⟩ = true)
    (hone : actions.filter (paMatches agent.pk) = [a])
    (hge : verLe latestVer a.details.version = true) :
    agent_update agent latestVer url inno actions nextPk =
      ⟨"pending", actions, nextPk, []⟩ := by
  have hlt : verLt a.details.version latestVer = false :=
    verLt_eq_false_of_verLe _ _ hge
  simp [agent_update, harch, hnats, hleg, hone, hlt]

/-- C3 (witness): the §8 scenario — the agent already holds a pending
action for 1.2.0 and the target is still 1.2.0. -/
theorem agentUpdate_pending_noop_witness :
    agent_update ⟨1, "host", ⟨1, 1, 10⟩, some "64", true, "online", false, false, false⟩
        ⟨1, 2, 0⟩ "u" "i" [⟨0, 1, "agentupdate", "pending", ⟨"u", ⟨1, 2, 0⟩, "i"⟩⟩] 5 =
      ⟨"pending", [⟨0, 1, "agentupdate", "pending", ⟨"u", ⟨1, 2, 0⟩, "i"⟩⟩], 5, []⟩ :=
  agentUpdate_pending_noop
    ⟨1, "host", ⟨1, 1, 10⟩, some "64", true, "online", false, false, false⟩
    ⟨1, 2, 0⟩ "u" "i" [⟨0, 1, "agentupdate", "pending", ⟨"u", ⟨1, 2, 0⟩, "i"⟩⟩] 5
    ⟨0, 1, "agentupdate", "pending", ⟨"u", ⟨1, 2, 0⟩, "i"⟩⟩
    (by decide) rfl (by decide) (by decide) (by decide)

/-- C2: for a push-capable legacy-generation agent with known architecture,
`agent_update` preserves the invariant that at most one pending
agent-update action exists for the agent; and when exactly one exists with
a lower recorded target version, it is deleted and replaced, so exactly
the newly created action remains and the outcome is "created". -/
theorem agentUpdate_pending_dedup_invariant (agent : Agent) (latestVer : Version)
    (url inno : String) (actions : List PendingAction) (nextPk : Nat)
    (harch : agent.arch ≠ none) (hnats : agent.has_nats = true)
    (hleg : verLe agent.version ⟨1, 1, 11⟩ = true)
    (hfresh : ∀ b ∈ actions, b.pk < nextPk)
    (hinv : (actions.filter (paMatches agent.pk)).length ≤ 1) :
    ((agent_update agent latestVer url inno actions nextPk).actions.filter
        (paMatches agent.pk)).length ≤ 1 ∧
    ∀ a, actions.filter (paMatches agent.pk) = [a] →
      verLt a.details.version latestVer = true →
      (agent_update agent latestVer url inno actions nextPk).outcome = "created" ∧
      (agent_update agent latestVer url inno actions nextPk).actions.filter
          (paMatches agent.pk) =
        [mkUpdateAction nextPk agent.pk url latestVer inno] ∧
      a ∉ (agent_update agent latestVer url inno actions nextPk).actions := by
  rcases hfa : actions.filter (paMatches agent.pk) with _ | ⟨a0, t⟩
  · constructor
    · simp [agent_update, harch, hnats, hleg, hfa, List.filter_append,
        paMatches_mkUpdateAction]
    · intro a h
      exact absurd h (by simp)
  · have ht : t = [] := by
      rw [hfa] at hinv
      simp only [List.length_cons] at hinv
      exact List.eq_nil_of_length_eq_zero (by omega)
    subst ht
    have ha0 : a0 ∈ actions.filter (paMatches agent.pk) := by
      rw [hfa]; exact List.mem_singleton_self a0
    have ha0l : a0 ∈ actions := (List.mem_filter.mp ha0).1
    cases hvt : verLt a0.details.version latestVer
    · -- last pending action already records a version ≥ target: no write
      have hres : agent_update agent latestVer url inno actions nextPk =
          ⟨"pending", actions, nextPk, []⟩ := by
        simp [agent_update, harch, hnats, hleg, hfa, hvt]
      refine ⟨?_, ?_⟩
      · rw [hres]
        rw [hfa]
        simp
      · intro a h hlt
        have : a = a0 := by simpa using h.symm
        subst this
        rw [hvt] at hlt
        exact absurd hlt (by simp)
    · -- lower version: old action deleted, new one created
      have hdel := filter_delete_nil actions agent.pk a0 hfa
      have hres : agent_update agent latestVer url inno actions nextPk =
          ⟨"created",
            actions.filter (fun b => !(b.pk == a0.pk)) ++
              [mkUpdateAction nextPk agent.pk url latestVer inno],
            nextPk + 1, []⟩ := by
        simp [agent_update, harch, hnats, hleg, hfa, hvt]
      have hfilt : ((actions.filter (fun b => !(b.pk == a0.pk)) ++
            [mkUpdateAction nextPk agent.pk url latestVer inno]).filter
          (paMatches agent.pk)) =
          [mkUpdateAction nextPk agent.pk url latestVer inno] := by
        rw [List.filter_append, hdel]
        simp [paMatches_mkUpdateAction]
      refine ⟨?_, ?_⟩
      · rw [hres]
        simp only [hfilt]
        simp
      · intro a h hlt
        have haa : a = a0 := by simpa using h.symm
        subst haa
        refine ⟨by rw [hres], by rw [hres]; exact hfilt, ?_⟩
        rw [hres]
        simp only [List.mem_append, List.mem_singleton]
        rintro (hin | heq)
        · have := (List.mem_filter.mp hin).2
          simp at this
        · have hlt' : a.pk < nextPk := hfresh a ha0l
          rw [heq] at hlt'
          simp [mkUpdateAction] at hlt'

/-- C2 (witness): a legacy agent holding one pending action for 1.1.11 and
target 1.2.0 — afterwards exactly the new action remains and the old row is
gone. -/
theorem agentUpdate_pending_dedup_invariant_witness :
    ((agent_update ⟨1, "host", ⟨1, 1, 10⟩, some "64", true, "online", false, false, false⟩
        ⟨1, 2, 0⟩ "u" "i" [⟨0, 1, "agentupdate", "pending", ⟨"u", ⟨1, 1, 11⟩, "i"⟩⟩]
        5).actions.filter (paMatches 1)).length ≤ 1 ∧
    (agent_update ⟨1, "host", ⟨1, 1, 10⟩, some "64", true, "online", false, false, false⟩
        ⟨1, 2, 0⟩ "u" "i" [⟨0, 1, "agentupdate", "pending", ⟨"u", ⟨1, 1, 11⟩, "i"⟩⟩]
        5).actions.filter (paMatches 1) = [mkUpdateAction 5 1 "u" ⟨1, 2, 0⟩ "i"] ∧
    (⟨0, 1, "agentupdate", "pending", ⟨"u", ⟨1, 1, 11⟩, "i"⟩⟩ : PendingAction) ∉
      (agent_update ⟨1, "host", ⟨1, 1, 10⟩, some "64", true, "online", false, false, false⟩
        ⟨1, 2, 0⟩ "u" "i" [⟨0, 1, "agentupdate", "pending", ⟨"u", ⟨1, 1, 11⟩, "i"⟩⟩]
        5).actions := by
  have h := agentUpdate_pending_dedup_invariant
    ⟨1, "host", ⟨1, 1, 10⟩, some "64", true, "online", false, false, false⟩
    ⟨1, 2, 0⟩ "u" "i" [⟨0, 1, "agentupdate", "pending", ⟨"u", ⟨1, 1, 11⟩, "i"⟩⟩] 5
    (by decide) rfl (by decide) (by decide) (by decide)
  have h2 := h.2 ⟨0, 1, "agentupdate", "pending", ⟨"u", ⟨1, 1, 11⟩, "i"⟩⟩
    (by decide) (by decide)
  exact ⟨h.1, h2.2.1, h2.2.2⟩

/-- C4: for a push-capable modern-generation agent (version > 1.1.11) with
known architecture, `agent_update` dispatches exactly one fire-and-forget
"agentupdate" message carrying {url, version, inno}, returns "created",
and leaves the PendingAction table and primary-key counter unchanged. -/
theorem agentUpdate_modern_dispatch (agent : Agent) (latestVer : Version)
    (url inno : String) (actions : List PendingAction) (nextPk : Nat)
    (harch : agent.arch ≠ none) (hnats : agent.has_nats = true)
    (hmodern : verLe agent.version ⟨1, 1, 11⟩ = false) :
    agent_update agent latestVer url inno actions nextPk =
      ⟨"created", actions, nextPk, [NatsMsg.agentupdate url latestVer inno]⟩ := by
  simp [agent_update, harch, hnats, hmodern]

/-- C4 (witness): a 1.1.12 agent. -/
theorem agentUpdate_modern_dispatch_witness :
    agent_update ⟨2, "host", ⟨1, 1, 12⟩, some "64", true, "online", false, false, false⟩
        ⟨1, 2, 0⟩ "u" "i" [] 3 =
      ⟨"created", [], 3, [NatsMsg.agentupdate "u" ⟨1, 2, 0⟩ "i"]⟩ :=
  agentUpdate_modern_dispatch
    ⟨2, "host", ⟨1, 1, 12⟩, some "64", true, "online", false, false, false⟩
    ⟨1, 2, 0⟩ "u" "i" [] 3 (by decide) rfl (by decide)

/-! ## Uninstall retry loop lemmas -/

/-- After `n` consecutive failures already counted, a run of failing
attempts followed by a success within the budget makes the loop exit in the
success state right at the success, leaving the remaining outcomes
unconsumed. -/
theorem uninstallLoop_success (pre : List SaltResp) (s : SaltResp)
    (rest : List SaltResp) (n : Nat)
    (hfail : ∀ r ∈ pre, isFailure r = true) (hn : n + pre.length ≤ 9)
    (hs : isFailure s = false) :
    uninstallLoop (pre ++ s :: rest) n = some (false, rest) := by
  induction pre generalizing n with
  | nil =>
    cases s with
    | err => simp [isFailure] at hs
    | ret v =>
      have hv : (v != "ok") = false := by simpa [isFailure] using hs
      simp [uninstallLoop, hv]
  | cons r pre ih =>
    have hr : isFailure r = true := hfail r (List.mem_cons_self r pre)
    have hrest : ∀ x ∈ pre, isFailure x = true :=
      fun x hx => hfail x (List.mem_cons_of_mem r hx)
    have hn' : n + 1 + pre.length ≤ 9 := by
      simp only [List.length_cons] at hn
      omega
    have h10 : ¬ (n + 1 ≥ 10) := by omega
    have h0 : ¬ (n + 1 = 0) := by omega
    cases r with
    | err =>
      simp only [List.cons_append, uninstallLoop]
      rw [if_neg h10, if_neg h0]
      exact ih (n + 1) hrest hn'
    | ret v =>
      have hv : (v != "ok") = true := by simpa [isFailure] using hr
      simp only [List.cons_append, uninstallLoop, hv, if_true]
      rw [if_neg h10, if_neg h0]
      exact ih (n + 1) hrest hn'

/-- After `n` consecutive failures already counted, a further run of
failures reaching the budget of 10 makes the loop exit in the failed state,
leaving the remaining outcomes unconsumed. -/
theorem uninstallLoop_tenFailures (pre rest : List SaltResp) (n : Nat)
    (hfail : ∀ r ∈ pre, isFailure r = true) (hn : n ≤ 9)
    (hlen : n + pre.length = 10) :
    uninstallLoop (pre ++ rest) n = some (true, rest) := by
  induction pre generalizing n with
  | nil =>
    exfalso
    simp only [List.length_nil] at hlen
    omega
  | cons r pre ih =>
    have hr : isFailure r = true := hfail r (List.mem_cons_self r pre)
    have hrest : ∀ x ∈ pre, isFailure x = true :=
      fun x hx => hfail x (List.mem_cons_of_mem r hx)
    have hlen' : n + 1 + pre.length = 10 := by
      simp only [List.length_cons] at hlen
      omega
    by_cases hten : n + 1 ≥ 10
    · -- the budget is hit on this attempt: pre must be exhausted
      have hpre : pre = [] := by
        have : pre.length = 0 := by omega
        exact List.eq_nil_of_length_eq_zero this
      subst hpre
      cases r with
      | err =>
        simp only [List.cons_append, List.nil_append, uninstallLoop]
        rw [if_pos hten]
        rfl
      | ret v =>
        have hv : (v != "ok") = true := by simpa [isFailure] using hr
        simp only [List.cons_append, List.nil_append, uninstallLoop, hv, if_true]
        rw [if_pos hten]
        rfl
    · have h0 : ¬ (n + 1 = 0) := by omega
      cases r with
      | err =>
        simp only [List.cons_append, uninstallLoop]
        rw [if_neg hten, if_neg h0]
        exact ih (n + 1) hrest (by omega) hlen'
      | ret v =>
        have hv : (v != "ok") = true := by simpa [isFailure] using hr
        simp only [List.cons_append, uninstallLoop, hv, if_true]
        rw [if_neg hten, if_neg h0]
        exact ih (n + 1) hrest (by omega) hlen'

/-- C5: for a non-push-capable agent, if the attempts up to the first
success are all failures and the success comes on or before the 10th
attempt, the loop breaks right there in the success state (leaving the
rest of the outcomes unconsumed) and no failure is logged; if the first 10
attempts all fail, the loop breaks in the failed state, the failure is
logged, and the key-delete step is still attempted. -/
theorem uninstall_retry_spec (pre : List SaltResp) (s : SaltResp)
    (rest : List SaltResp) (kd : SaltResp)
    (hfail : ∀ r ∈ pre, isFailure r = true) :
    (pre.length ≤ 9 → isFailure s = false →
      uninstallLoop (pre ++ s :: rest) 0 = some (false, rest) ∧
      uninstall_agent_task false (pre ++ s :: rest) kd =
        some ⟨false, true, isErr kd, "ok"⟩) ∧
    (pre.length = 10 →
      uninstallLoop (pre ++ s :: rest) 0 = some (true, s :: rest) ∧
      uninstall_agent_task false (pre ++ s :: rest) kd =
        some ⟨true, true, isErr kd, "ok"⟩) := by
  constructor
  · intro hlen hs
    have hl := uninstallLoop_success pre s rest 0 hfail (by omega) hs
    exact ⟨hl, by simp [uninstall_agent_task, hl]⟩
  · intro hlen
    have hl := uninstallLoop_tenFailures pre (s :: rest) 0 hfail (by omega) (by omega)
    exact ⟨hl, by simp [uninstall_agent_task, hl]⟩

/-- C5 (witness): 9 transport errors then a success end in the success
state; 10 errors end in the failed state with the key-delete outcome still
reported. -/
theorem uninstall_retry_spec_witness :
    uninstall_agent_task false (List.replicate 9 SaltResp.err ++ [SaltResp.ret "ok"])
        (SaltResp.ret "x") = some ⟨false, true, false, "ok"⟩ ∧
    uninstall_agent_task false (List.replicate 10 SaltResp.err ++ [SaltResp.ret "ok"])
        (SaltResp.ret "x") = some ⟨true, true, false, "ok"⟩ := by
  constructor
  · exact ((uninstall_retry_spec (List.replicate 9 SaltResp.err) (SaltResp.ret "ok")
      [] (SaltResp.ret "x") (by decide)).1 (by decide) (by decide)).2
  · exact ((uninstall_retry_spec (List.replicate 10 SaltResp.err) (SaltResp.ret "ok")
      [] (SaltResp.ret "x") (by decide)).2 (by decide)).2

/-- C6: whatever the retry-loop outcomes and the key-delete outcome, a
terminating `uninstall_agent_task` returns the fixed success sentinel
"ok". -/
theorem uninstall_ret_ok (hn : Bool) (resps : List SaltResp) (kd : SaltResp)
    (res : UninstallResult) (h : uninstall_agent_task hn resps kd = some res) :
    res.ret = "ok" := by
  unfold uninstall_agent_task at h
  split at h
  · cases h
    rfl
  · cases hl : uninstallLoop resps 0 with
    | none =>
      rw [hl] at h
      cases h
    | some p =>
      obtain ⟨e, rest⟩ := p
      rw [hl] at h
      cases h
      rfl

/-- C6 (witness): 10 failed attempts and a raising key-delete still yield
"ok". -/
theorem uninstall_ret_ok_witness :
    UninstallResult.ret ⟨true, true, true, "ok"⟩ = "ok" :=
  uninstall_ret_ok false (List.replicate 10 SaltResp.err) SaltResp.err
    ⟨true, true, true, "ok"⟩ (by decide)

/-! ## Outage tracker lemmas -/

/-- Appending an active outage row keeps (or makes) the agent's latest
outage row active. -/
theorem lastActive_append (p m : Nat) (st : OutageState) (o : AgentOutage)
    (ho : o.is_active = true) (h : o.agentId = p ∨ lastActive p st = true) :
    lastActive p ⟨st.outages ++ [o], m⟩ = true := by
  unfold lastActive
  simp only [List.filter_append]
  by_cases hf : outageFor p o = true
  · rw [show List.filter (outageFor p) [o] = [o] by simp [hf]]
    rw [List.getLast?_concat]
    exact ho
  · rw [show List.filter (outageFor p) [o] = [] by simp [List.filter, Bool.eq_false_iff.mpr hf]]
    rw [List.append_nil]
    rcases h with h1 | h2
    · exact absurd (by simp [outageFor, h1]) hf
    · unfold lastActive at h2
      exact h2

/-- The loop body either leaves the outage table alone or appends one
freshly created (hence active) outage for the processed agent. -/
theorem processAgent_cases (a : Agent) (st : OutageState) :
    (processAgent a st).1 = st ∨
    (processAgent a st).1 = ⟨st.outages ++ [newOutage st.nextPk a.pk], st.nextPk + 1⟩ := by
  unfold processAgent
  split
  · split
    · split
      · left; rfl
      · right; rfl
    · left; rfl
  · left; rfl

/-- Processing any agent preserves "the latest outage row of agent `p` is
active". -/
theorem processAgent_preserves_lastActive (a : Agent) (st : OutageState)
    (p : Nat) (h : lastActive p st = true) :
    lastActive p (processAgent a st).1 = true := by
  rcases processAgent_cases a st with hc | hc <;> rw [hc]
  · exact h
  · exact lastActive_append p _ st _ rfl (Or.inr h)

/-- After processing an alert-enabled overdue agent, that agent's latest
outage row is active (either it already was, or the fresh row is). -/
theorem processAgent_establishes (a : Agent) (st : OutageState)
    (h1 : (a.overdue_email_alert || a.overdue_text_alert) = true)
    (h2 : (a.status == "overdue") = true) :
    lastActive a.pk (processAgent a st).1 = true := by
  by_cases hla : lastActive a.pk st = true
  · exact processAgent_preserves_lastActive a st a.pk hla
  · unfold processAgent
    simp only [h1, h2, if_true]
    rw [if_neg (by simpa using hla)]
    exact lastActive_append a.pk _ st _ rfl (Or.inl rfl)

/-- The sweep preserves "the latest outage row of agent `p` is active". -/
theorem sweep_preserves_lastActive (agents : List Agent) (st : OutageState)
    (p : Nat) (h : lastActive p st = true) :
    lastActive p (agent_outages_task agents st).1 = true := by
  induction agents generalizing st with
  | nil => exact h
  | cons a rest ih =>
    simp only [agent_outages_task]
    exact ih _ (processAgent_preserves_lastActive a st p h)

/-- After a sweep, every alert-enabled overdue agent of the processed list
has an active latest outage row. -/
theorem sweep_establishes (agents : List Agent) (st : OutageState) :
    ∀ a ∈ agents, (a.overdue_email_alert || a.overdue_text_alert) = true →
      (a.status == "overdue") = true →
      lastActive a.pk (agent_outages_task agents st).1 = true := by
  induction agents generalizing st with
  | nil =>
    intro a ha
    exact absurd ha (List.not_mem_nil a)
  | cons b rest ih =>
    intro a ha h1 h2
    rcases List.mem_cons.mp ha with rfl | hmem
    · simp only [agent_outages_task]
      exact sweep_preserves_lastActive rest _ _ (processAgent_establishes a st h1 h2)
    · simp only [agent_outages_task]
      exact ih _ a hmem h1 h2

/-- An agent whose latest outage row is already active (whenever it is
alert-enabled and overdue) is skipped entirely: no row, no job. -/
theorem processAgent_skip (a : Agent) (st : OutageState)
    (h : (a.overdue_email_alert || a.overdue_text_alert) = true →
      (a.status == "overdue") = true → lastActive a.pk st = true) :
    processAgent a st = (st, []) := by
  unfold processAgent
  by_cases h1 : (a.overdue_email_alert || a.overdue_text_alert) = true
  · by_cases h2 : (a.status == "overdue") = true
    · simp [h1, h2, h h1 h2]
    · simp [h1, h2]
  · simp [h1]

/-- A sweep in which every agent is skipped changes nothing and schedules
nothing. -/
theorem sweep_noop (agents : List Agent) (st : OutageState)
    (h : ∀ a ∈ agents, processAgent a st = (st, [])) :
    agent_outages_task agents st = (st, []) := by
  induction agents with
  | nil => rfl
  | cons a rest ih =>
    have ha := h a (List.mem_cons_self a rest)
    have hrest : ∀ x ∈ rest, processAgent x st = (st, []) :=
      fun x hx => h x (List.mem_cons_of_mem a hx)
    simp only [agent_outages_task, ha]
    rw [ih hrest]
    rfl

/-- C7: running the outage sweep a second time on the registry state the
first run produced creates no outage row and schedules no notification job
— the state is returned unchanged with an empty job list. -/
theorem outages_sweep_idempotent (agents : List Agent) (st st1 : OutageState)
    (jobs1 : List Job) (h : agent_outages_task agents st = (st1, jobs1)) :
    agent_outages_task agents st1 = (st1, []) := by
  apply sweep_noop
  intro a ha
  apply processAgent_skip
  intro h1 h2
  have hlast := sweep_establishes agents st a ha h1 h2
  rw [h] at hlast
  exact hlast

/-- C7 (witness): a single overdue alert-enabled agent; the second sweep on
the state after the first run is a no-op. -/
theorem outages_sweep_idempotent_witness :
    agent_outages_task
        [⟨7, "h", ⟨1, 1, 10⟩, some "64", true, "overdue", true, true, false⟩]
        ⟨[⟨0, 7, true, false, false, false, false⟩], 1⟩ =
      (⟨[⟨0, 7, true, false, false, false, false⟩], 1⟩, []) :=
  outages_sweep_idempotent
    [⟨7, "h", ⟨1, 1, 10⟩, some "64", true, "overdue", true, true, false⟩]
    ⟨[], 0⟩ ⟨[⟨0, 7, true, false, false, false, false⟩], 1⟩
    [Job.outageEmail 0, Job.outageSms 0] (by decide)

/-- C9: the dedup check looks only at the latest outage row — when the
latest row for an alert-enabled overdue agent is inactive, a new outage is
created even though an older row for the same agent is still active. -/
theorem outages_dedup_checks_last_only (a : Agent) (st : OutageState)
    (o : AgentOutage)
    (halert : (a.overdue_email_alert || a.overdue_text_alert) = true)
    (hstatus : (a.status == "overdue") = true)
    (hlast : (st.outages.filter (outageFor a.pk)).getLast? = some o)
    (hinact : o.is_active = false)
    (_hold : ∃ o2 ∈ st.outages.filter (outageFor a.pk), o2.is_active = true) :
    (agent_outages_task [a] st).1.outages =
      st.outages ++ [newOutage st.nextPk a.pk] := by
  have hla : lastActive a.pk st = false := by
    unfold lastActive
    rw [hlast]
    exact hinact
  simp only [agent_outages_task, processAgent, halert, hstatus, if_true]
  rw [if_neg (by simp [hla])]

/-- C9 (witness): pk-7 agent with an older active outage (pk 0) and an
inactive latest outage (pk 1): the sweep still appends a new row. -/
theorem outages_dedup_checks_last_only_witness :
    (agent_outages_task
        [⟨7, "h", ⟨1, 1, 10⟩, some "64", true, "overdue", true, false, false⟩]
        ⟨[⟨0, 7, true, false, false, false, false⟩,
          ⟨1, 7, false, false, false, false, false⟩], 2⟩).1.outages =
      [⟨0, 7, true, false, false, false, false⟩,
        ⟨1, 7, false, false, false, false, false⟩] ++ [newOutage 2 7] :=
  outages_dedup_checks_last_only
    ⟨7, "h", ⟨1, 1, 10⟩, some "64", true, "overdue", true, false, false⟩
    ⟨[⟨0, 7, true, false, false, false, false⟩,
      ⟨1, 7, false, false, false, false, false⟩], 2⟩
    ⟨1, 7, false, false, false, false, false⟩
    (by decide) (by decide) (by decide) (by decide) (by decide)

/-- C10: a notification job that raises in the notifier call leaves the
outage row unchanged (the confirmation write never runs), and a job that
completes sets exactly its own delivery-confirmation flag and nothing
else — for each of the four jobs: outage email, outage sms, recovery
email, recovery sms. -/
theorem outage_notification_flag_discipline (o : AgentOutage) :
    agent_outage_email_task o true = (o, true) ∧
    agent_outage_email_task o false = ({ o with outage_email_sent := true }, false) ∧
    agent_outage_sms_task o true = (o, true) ∧
    agent_outage_sms_task o false = ({ o with outage_sms_sent := true }, false) ∧
    agent_recovery_email_task o true = (o, true) ∧
    agent_recovery_email_task o false = ({ o with recovery_email_sent := true }, false) ∧
    agent_recovery_sms_task o true = (o, true) ∧
    agent_recovery_sms_task o false = ({ o with recovery_sms_sent := true }, false) :=
  ⟨rfl, rfl, rfl, rfl, rfl, rfl, rfl, rfl⟩

/-- C8: when the bounded `runscriptfull` call reports the timeout sentinel,
the task logs the timeout and returns — no report is composed and the mail
transport is never contacted. -/
theorem runScript_timeout_no_email (hostname scriptName : String)
    (emails defaults : List String) :
    run_script_email_results_task hostname scriptName none emails defaults =
      ⟨true, none, false, []⟩ :=
  rfl

end TRMM
